import Mathlib

/-!
# Verification of the shopify-reviews HTTP backend

Shallow embedding of `src/server.js`: an Express server over a MongoDB
collection of reviews, with routes

* `GET  /reviews?product_id=…`  — list reviews of a product, newest first;
* `POST /reviews`               — create a review;
* `POST /reviews/helpful`       — increment a review's `helpful` counter;
* `GET  /review-stats`          — counts grouped by rating, plus a total;
* `GET  /order-count`           — external order count plus a daily offset;
* `GET  /ping`                  — liveness no-op.

The MongoDB collection is modelled as a `List Review`; each route handler
is a pure function from its request data (and the ambient server-supplied
data: the store-assigned id, the clock, the random draw) and the database
state to a response and the new database state.
-/

namespace ShopifyReviews

/-- A document of the `Review` collection, following `reviewSchema`
(`server.js` lines 33–40): `product_id`, `customer_name`, `rating`,
`comment`, `helpful` (default `0`), `created_at` (default `Date.now`).
The Mongo `_id` is modelled as a `Nat`, `created_at` as a `Nat` timestamp
and the JS numbers `rating` and `helpful` as `Int`. -/
structure Review where
  id : Nat
  product_id : String
  customer_name : String
  rating : Int
  comment : String
  helpful : Int
  created_at : Nat
deriving Repr, DecidableEq

/-! ## GET /reviews -/

/-- Result of `GET /reviews`: HTTP 400 on a missing `product_id`, else
HTTP 200 with the matching reviews. -/
inductive ListResult where
  | badRequest
  | ok (reviews : List Review)
deriving Repr, DecidableEq

/-- The sort key of `Review.find({product_id}).sort({created_at: -1})`:
`created_at` descending. -/
def dateDesc (a b : Review) : Prop := b.created_at ≤ a.created_at

instance : DecidableRel dateDesc := fun _ _ => Nat.decLe _ _

instance : IsTotal Review dateDesc := ⟨fun a b => Nat.le_total b.created_at a.created_at⟩

instance : IsTrans Review dateDesc := ⟨fun _ _ _ hab hbc => Nat.le_trans hbc hab⟩

/-- `.sort({created_at: -1})`: the matching documents in descending
`created_at` order (realised here by insertion sort). -/
def sortByCreatedDesc (l : List Review) : List Review := List.insertionSort dateDesc l

/-- Handler of `GET /reviews` (`server.js` lines 45–57).  `product_id`
comes from the query string, so it is either absent or a string; both
`undefined` and `""` are falsy, so `if (!product_id)` rejects them with
400.  Otherwise the matching reviews are returned sorted by `created_at`
descending. -/
def getReviews (pid? : Option String) (db : List Review) : ListResult :=
  match pid? with
  | none => .badRequest
  | some pid =>
    if pid = "" then .badRequest
    else .ok (sortByCreatedDesc (db.filter (fun r => r.product_id == pid)))

/-! ## POST /reviews -/

/-- Result of `POST /reviews`: HTTP 400 on a missing field, else HTTP 200
with `{success: true}`. -/
inductive CreateResult where
  | badRequest
  | ok
deriving Repr, DecidableEq

/-- Handler of `POST /reviews` (`server.js` lines 60–78).  The guard
`if (!product_id || !customer_name || !rating || !comment)` rejects a
missing field, but also an empty string or the number `0`, all falsy.
On success the saved document gets the schema defaults `helpful = 0` and
`created_at = Date.now` (`now`), and the store assigns `newId`. -/
def postReview (pid? cn? : Option String) (rt? : Option Int) (cm? : Option String)
    (newId now : Nat) (db : List Review) : CreateResult × List Review :=
  match pid?, cn?, rt?, cm? with
  | some pid, some cn, some rt, some cm =>
    if pid = "" ∨ cn = "" ∨ rt = 0 ∨ cm = "" then (.badRequest, db)
    else (.ok, db ++ [{ id := newId, product_id := pid, customer_name := cn,
                        rating := rt, comment := cm, helpful := 0, created_at := now }])
  | _, _, _, _ => (.badRequest, db)

/-! ## POST /reviews/helpful -/

/-- Result of `POST /reviews/helpful`: HTTP 404 when no review matches,
else HTTP 200 with `{success: true, helpful: …}`. -/
inductive HelpfulResult where
  | notFound
  | ok (helpful : Int)
deriving Repr, DecidableEq

/-- HTTP status of a `HelpfulResult`, as serialized by the route. -/
def HelpfulResult.status : HelpfulResult → Nat
  | .notFound => 404
  | .ok _ => 200

/-- `Review.findByIdAndUpdate(rid, {$inc: {helpful: 1}}, {new: true})`:
updates the (unique) document whose `_id` is `rid`, returning the new
collection together with the updated document, or `none` when no
document matches. -/
def findByIdAndUpdateInc (rid : Nat) : List Review → Option (List Review × Review)
  | [] => none
  | r :: rs =>
    if r.id = rid then
      some (({ r with helpful := r.helpful + 1 }) :: rs, { r with helpful := r.helpful + 1 })
    else
      (findByIdAndUpdateInc rid rs).map (fun p => (r :: p.1, p.2))

/-- Handler of `POST /reviews/helpful` (`server.js` lines 81–99).  There
is no presence check on `review_id`: a missing id is passed straight to
`findByIdAndUpdate`; mongoose treats an `undefined` id as
`findOneAndUpdate({_id: null})`, which matches no document, so the route
answers 404. -/
def postHelpful (rid? : Option Nat) (db : List Review) : HelpfulResult × List Review :=
  match rid? with
  | none => (.notFound, db)
  | some rid =>
    match findByIdAndUpdateInc rid db with
    | none => (.notFound, db)
    | some (db', u) => (.ok u.helpful, db')

/-- The database state after `n` consecutive `POST /reviews/helpful`
requests for the id `rid`. -/
def iterHelpful (rid : Nat) (db : List Review) : Nat → List Review
  | 0 => db
  | n + 1 => (postHelpful (some rid) (iterHelpful rid db n)).2

/-! ## GET /review-stats -/

/-- The multiset of ratings in the collection, the grouping key of the
`$group` aggregation. -/
def ratingsOf (db : List Review) : List Int := db.map Review.rating

/-- The `$group: {_id: "$rating", count: {$sum: 1}}` aggregation
(`server.js` lines 154–161): one `(rating, count)` pair per distinct
rating present in the collection. -/
def aggregateByRating (db : List Review) : List (Int × Nat) :=
  (ratingsOf db).dedup.map (fun v => (v, (ratingsOf db).count v))

/-- `ratings[item._id] = item.count` on a JS object: overwrite the value
when the key is present, otherwise add the key. -/
def setKey (k : Int) (v : Nat) : List (Int × Nat) → List (Int × Nat)
  | [] => [(k, v)]
  | (k', v') :: rest => if k' = k then (k, v) :: rest else (k', v') :: setKey k v rest

/-- Response body of `GET /review-stats`; the JS `ratings` object is
modelled as an association list of its keys and values. -/
structure StatsResponse where
  totalReviews : Nat
  ratings : List (Int × Nat)
deriving Repr, DecidableEq

/-- The literal `{5: 0, 4: 0, 3: 0, 2: 0, 1: 0}`; a JS object enumerates
integer-like keys in ascending order. -/
def initRatings : List (Int × Nat) := [(1, 0), (2, 0), (3, 0), (4, 0), (5, 0)]

/-- Handler of `GET /review-stats` (`server.js` lines 152–185):
`totalReviews` is `stats.reduce((sum, item) => sum + item.count, 0)` and
`ratings` starts from `initRatings` with each aggregation entry written
over it. -/
def reviewStats (db : List Review) : StatsResponse :=
  { totalReviews := (aggregateByRating db).foldl (fun sum item => sum + item.2) 0
    ratings := (aggregateByRating db).foldl (fun acc item => setKey item.1 item.2 acc) initRatings }

/-! ## GET /order-count -/

/-- The module-level mutable state `lastRandomValue` / `lastGeneratedDate`
(`server.js` lines 105–106). -/
structure OffsetState where
  lastRandomValue : Option Nat
  lastGeneratedDate : Option String
deriving Repr, DecidableEq

/-- Both variables start as `null`. -/
def initOffsetState : OffsetState := ⟨none, none⟩

/-- `getDailyRandomOffset` (`server.js` lines 108–118).  `today` is the
calendar date string; `draw % 6` stands for `Math.floor(Math.random()*6)`,
which lies in `0..5` since `Math.random()` is in `[0, 1)`.  When the
cached date differs from `today` a fresh value in `1..6` is stored; the
function returns `lastRandomValue || 0` (`Option.getD 0`: `null` is
falsy, `1..6` are truthy). -/
def getDailyRandomOffset (today : String) (draw : Nat) (s : OffsetState) : Nat × OffsetState :=
  let s' := if s.lastGeneratedDate = some today then s
            else { lastRandomValue := some (draw % 6 + 1), lastGeneratedDate := some today }
  (s'.lastRandomValue.getD 0, s')

/-- One `GET /order-count` request: the true count of matching paid
orders reported by the external API, the calendar date at which it is
served, and the randomness available to `Math.random`. -/
structure OrderReq where
  actual : Nat
  today : String
  draw : Nat
deriving Repr, DecidableEq

/-- Handler of `GET /order-count` (`server.js` lines 120–149):
`displayCount = actualCount + getDailyRandomOffset()`. -/
def orderCountHandler (q : OrderReq) (s : OffsetState) : Nat × OffsetState :=
  let p := getDailyRandomOffset q.today q.draw s
  (q.actual + p.1, p.2)

/-- The offset state after serving a sequence of requests. -/
def stateAfter (s : OffsetState) : List OrderReq → OffsetState
  | [] => s
  | q :: rest => stateAfter (orderCountHandler q s).2 rest

/-- The responses (`count` values) to a sequence of requests. -/
def orderCountRun (s : OffsetState) : List OrderReq → List Nat
  | [] => []
  | q :: rest => (orderCountHandler q s).1 :: orderCountRun (orderCountHandler q s).2 rest

/-! ## The full interface as a transition system on the review collection -/

/-- One request to any route of the server, carrying the server-supplied
data the handler uses.  `GET /order-count` and `GET /ping` never touch the
review collection. -/
inductive Op where
  | listOp (pid? : Option String)
  | createOp (pid? cn? : Option String) (rt? : Option Int) (cm? : Option String) (newId now : Nat)
  | helpfulOp (rid? : Option Nat)
  | statsOp
  | pingOp
deriving Repr, DecidableEq

/-- Effect of one request on the review collection. -/
def applyOp (op : Op) (db : List Review) : List Review :=
  match op with
  | .listOp _ => db
  | .createOp pid? cn? rt? cm? newId now => (postReview pid? cn? rt? cm? newId now db).2
  | .helpfulOp rid? => (postHelpful rid? db).2
  | .statsOp => db
  | .pingOp => db

/-- Effect of a request sequence on the review collection. -/
def applyOps (db : List Review) : List Op → List Review
  | [] => db
  | op :: rest => applyOps (applyOp op db) rest

/-! ## Helper lemmas about `findByIdAndUpdateInc` -/

/-- The lookup fails exactly when no stored review has the id. -/
theorem findInc_eq_none {rid : Nat} :
    ∀ {l : List Review}, findByIdAndUpdateInc rid l = none ↔ ∀ r ∈ l, r.id ≠ rid
  | [] => by simp [findByIdAndUpdateInc]
  | r :: rs => by
    by_cases h : r.id = rid
    · simp [findByIdAndUpdateInc, h]
    · rw [findByIdAndUpdateInc, if_neg h, Option.map_eq_none', findInc_eq_none (l := rs)]
      simp [List.forall_mem_cons, h]

/-- A successful lookup-and-increment decomposes the collection around the
unique matched review: only its `helpful` field changes. -/
theorem findInc_eq_some {rid : Nat} :
    ∀ {l l' : List Review} {u : Review}, findByIdAndUpdateInc rid l = some (l', u) →
      ∃ pre x post, l = pre ++ x :: post ∧ x.id = rid ∧
        l' = pre ++ ({ x with helpful := x.helpful + 1 }) :: post ∧
        u = { x with helpful := x.helpful + 1 }
  | [], _, _ => by simp [findByIdAndUpdateInc]
  | r :: rs, l', u => by
    by_cases h : r.id = rid
    · rw [findByIdAndUpdateInc, if_pos h]
      intro heq
      injection heq with heq'
      injection heq' with ha hb
      exact ⟨[], r, rs, rfl, h, ha.symm, hb.symm⟩
    · rw [findByIdAndUpdateInc, if_neg h]
      cases hrec : findByIdAndUpdateInc rid rs with
      | none => simp
      | some p =>
        obtain ⟨rs', u'⟩ := p
        simp only [Option.map_some']
        intro heq
        injection heq with heq'
        injection heq' with ha hb
        obtain ⟨pre, x, post, hl, hx, hl', hu⟩ := findInc_eq_some hrec
        exact ⟨r :: pre, x, post, by simp [hl], hx, by simp [← ha, hl'], by rw [← hb, hu]⟩

/-- Converse of the decomposition: when the id first matches at `x`, the
lookup increments exactly `x`. -/
theorem findInc_append (pre post : List Review) (x : Review)
    (hpre : ∀ r ∈ pre, r.id ≠ x.id) :
    findByIdAndUpdateInc x.id (pre ++ x :: post) =
      some (pre ++ ({ x with helpful := x.helpful + 1 }) :: post,
            { x with helpful := x.helpful + 1 }) := by
  induction pre with
  | nil => simp [findByIdAndUpdateInc]
  | cons r rs ih =>
    have hr : r.id ≠ x.id := hpre r (List.mem_cons_self r rs)
    have hrest : ∀ y ∈ rs, y.id ≠ x.id := fun y hy => hpre y (List.mem_cons_of_mem r hy)
    simp [List.cons_append, findByIdAndUpdateInc, if_neg hr, ih hrest]

/-- The increment preserves the sequence of ratings of the collection. -/
theorem findInc_map_rating {rid : Nat} {l l' : List Review} {u : Review}
    (h : findByIdAndUpdateInc rid l = some (l', u)) :
    l'.map Review.rating = l.map Review.rating := by
  obtain ⟨pre, x, post, hl, _, hl', _⟩ := findInc_eq_some h
  subst hl; subst hl'
  simp

/-! ## Helper lemmas about the route handlers -/

/-- A create request with any field absent is rejected and the collection
is untouched. -/
theorem postReview_missing_field (pid? cn? : Option String) (rt? : Option Int)
    (cm? : Option String) (newId now : Nat) (db : List Review)
    (h : pid? = none ∨ cn? = none ∨ rt? = none ∨ cm? = none) :
    postReview pid? cn? rt? cm? newId now db = (.badRequest, db) := by
  cases pid? <;> cases cn? <;> cases rt? <;> cases cm? <;>
    first
      | rfl
      | exact absurd h (by simp)

/-- A helpful request whose id matches no review answers 404 and leaves
the collection untouched. -/
theorem postHelpful_not_found (rid : Nat) (db : List Review)
    (h : ∀ x ∈ db, x.id ≠ rid) :
    postHelpful (some rid) db = (.notFound, db) := by
  have hnone : findByIdAndUpdateInc rid db = none := findInc_eq_none.mpr h
  simp [postHelpful, hnone]

/-- Every review present after one request was already present before it,
up to its `helpful` counter: ratings in particular are preserved. -/
theorem applyOp_rating_nonzero {op : Op} {db : List Review}
    (h : ∀ r ∈ db, r.rating ≠ 0) :
    ∀ r ∈ applyOp op db, r.rating ≠ 0 := by
  cases op with
  | listOp _ => exact h
  | statsOp => exact h
  | pingOp => exact h
  | createOp pid? cn? rt? cm? newId now =>
    cases pid? <;> cases cn? <;> cases rt? <;> cases cm? <;> try exact h
    rename_i pid cn rt cm
    simp only [applyOp, postReview]
    split
    · exact h
    · rename_i hcond
      push_neg at hcond
      intro r hr
      rcases List.mem_append.mp hr with hdb | hnew
      · exact h r hdb
      · rcases List.mem_singleton.mp hnew with rfl
        exact hcond.2.2.1
  | helpfulOp rid? =>
    cases rid? with
    | none => exact h
    | some rid =>
      simp only [applyOp, postHelpful]
      cases hrec : findByIdAndUpdateInc rid db with
      | none => exact h
      | some p =>
        obtain ⟨db', u⟩ := p
        intro r hr
        have hmem : r.rating ∈ db.map Review.rating := by
          rw [← findInc_map_rating hrec]
          exact List.mem_map_of_mem _ hr
        obtain ⟨y, hy, hyr⟩ := List.mem_map.mp hmem
        rw [← hyr]
        exact h y hy

/-- No reachable collection, starting from empty, holds a rating-zero
review: the truthiness guard of the create route filters out `0`. -/
theorem rating_nonzero_reachable :
    ∀ (ops : List Op) (db : List Review), (∀ r ∈ db, r.rating ≠ 0) →
      ∀ r ∈ applyOps db ops, r.rating ≠ 0
  | [], _, h => h
  | op :: rest, db, h =>
    rating_nonzero_reachable rest (applyOp op db) (applyOp_rating_nonzero h)

/-! ## Helper lemmas for the review-stats object -/

/-- Writing an existing key leaves the key list of the object unchanged. -/
theorem setKey_keys_of_mem {k : Int} (v : Nat) :
    ∀ {acc : List (Int × Nat)}, k ∈ acc.map Prod.fst →
      (setKey k v acc).map Prod.fst = acc.map Prod.fst
  | [], h => by simp at h
  | (k', v') :: rest, h => by
    by_cases hk : k' = k
    · simp [setKey, hk]
    · have hrest : k ∈ rest.map Prod.fst := by
        simp only [List.map_cons, List.mem_cons] at h
        rcases h with heq | hm
        · exact absurd heq.symm hk
        · exact hm
      simp [setKey, hk, setKey_keys_of_mem v hrest]

/-- Folding writes whose keys are all already present leaves the key list
unchanged. -/
theorem foldl_setKey_keys :
    ∀ {stats acc : List (Int × Nat)},
      (∀ p ∈ stats, p.1 ∈ acc.map Prod.fst) →
      (stats.foldl (fun a i => setKey i.1 i.2 a) acc).map Prod.fst = acc.map Prod.fst
  | [], _, _ => rfl
  | p :: rest, acc, h => by
    rw [List.foldl_cons]
    have hkeys := setKey_keys_of_mem p.2 (h p (List.mem_cons_self p rest))
    rw [foldl_setKey_keys (fun q hq => by
      rw [hkeys]; exact h q (List.mem_cons_of_mem p hq)), hkeys]

/-- Looking up the key just written yields the written value. -/
theorem lookup_setKey_self (k : Int) (v : Nat) :
    ∀ acc : List (Int × Nat), (setKey k v acc).lookup k = some v
  | [] => by rw [setKey, List.lookup, beq_self_eq_true]
  | (k', v') :: rest => by
    by_cases hk : k' = k
    · rw [setKey, if_pos hk, List.lookup, beq_self_eq_true]
    · rw [setKey, if_neg hk, List.lookup, beq_eq_false_iff_ne.mpr (Ne.symm hk)]
      exact lookup_setKey_self k v rest

/-- Writing one key does not change the value of another. -/
theorem lookup_setKey_ne {k a : Int} (hne : a ≠ k) (v : Nat) :
    ∀ acc : List (Int × Nat), (setKey k v acc).lookup a = acc.lookup a
  | [] => by simp [setKey, List.lookup, beq_eq_false_iff_ne.mpr hne]
  | (k', v') :: rest => by
    by_cases hk : k' = k
    · subst hk
      rw [setKey, if_pos rfl, List.lookup, beq_eq_false_iff_ne.mpr hne,
          List.lookup, beq_eq_false_iff_ne.mpr hne]
    · rw [setKey, if_neg hk]
      by_cases ha : k' = a
      · subst ha
        rw [List.lookup, beq_self_eq_true, List.lookup, beq_self_eq_true]
      · rw [List.lookup, beq_eq_false_iff_ne.mpr (Ne.symm ha), List.lookup,
            beq_eq_false_iff_ne.mpr (Ne.symm ha)]
        exact lookup_setKey_ne hne v rest

/-- A fold of writes none of which touches `k` leaves the value at `k`. -/
theorem lookup_foldl_setKey_of_not_mem {k : Int} :
    ∀ {stats acc : List (Int × Nat)}, (∀ p ∈ stats, p.1 ≠ k) →
      (stats.foldl (fun a i => setKey i.1 i.2 a) acc).lookup k = acc.lookup k
  | [], _, _ => rfl
  | p :: rest, acc, h => by
    rw [List.foldl_cons,
        lookup_foldl_setKey_of_not_mem (fun q hq => h q (List.mem_cons_of_mem p hq)),
        lookup_setKey_ne (Ne.symm (h p (List.mem_cons_self p rest))) p.2]

/-- A fold of writes with pairwise-distinct keys stores each entry. -/
theorem lookup_foldl_setKey_of_mem {k : Int} {v : Nat} :
    ∀ {stats acc : List (Int × Nat)}, (stats.map Prod.fst).Nodup → (k, v) ∈ stats →
      (stats.foldl (fun a i => setKey i.1 i.2 a) acc).lookup k = some v
  | [], _, _, hmem => by simp at hmem
  | p :: rest, acc, hnd, hmem => by
    rw [List.foldl_cons]
    simp only [List.map_cons, List.nodup_cons] at hnd
    rcases List.mem_cons.mp hmem with heq | hmem'
    · subst heq
      have hknot : k ∉ rest.map Prod.fst := by simpa using hnd.1
      rw [lookup_foldl_setKey_of_not_mem
        (fun q hq hqk => hknot (by rw [← hqk]; exact List.mem_map_of_mem Prod.fst hq))]
      exact lookup_setKey_self k v acc
    · exact lookup_foldl_setKey_of_mem hnd.2 hmem'

/-- Unfolding of the JS `reduce` that sums the aggregation counts. -/
theorem foldl_add_snd :
    ∀ (l : List (Int × Nat)) (n : Nat),
      l.foldl (fun s i => s + i.2) n = n + (l.map Prod.snd).sum
  | [], n => by simp
  | p :: rest, n => by
    rw [List.foldl_cons, foldl_add_snd rest (n + p.2)]
    simp [Nat.add_assoc]

/-- Summing, over each distinct element, its multiplicity, recovers the
length of the list. -/
theorem sum_dedup_count (rs : List Int) :
    (rs.dedup.map (fun v => rs.count v)).sum = rs.length := by
  have h1 : rs.dedup.toFinset.sum (fun v => rs.count v) =
      (rs.dedup.map (fun v => rs.count v)).sum :=
    List.sum_toFinset _ (List.nodup_dedup rs)
  have h2 : rs.dedup.toFinset = rs.toFinset := by
    ext a
    simp [List.mem_toFinset, List.mem_dedup]
  rw [← h1, h2]
  exact List.sum_toFinset_count_eq_length rs

/-- The aggregation's keys are the distinct ratings, without repetition. -/
theorem aggregateByRating_keys_nodup (db : List Review) :
    ((aggregateByRating db).map Prod.fst).Nodup := by
  rw [aggregateByRating, List.map_map]
  have hcomp : (Prod.fst ∘ fun v => (v, (ratingsOf db).count v)) = id := rfl
  rw [hcomp, List.map_id]
  exact List.nodup_dedup _

/-- Iterating the helpful route `n` times on the id of `x` adds `n` to the
`helpful` field of `x` and touches nothing else. -/
theorem iterHelpful_decomp {pre post : List Review} {x : Review}
    (hpre : ∀ r ∈ pre, r.id ≠ x.id) :
    ∀ n : Nat, iterHelpful x.id (pre ++ x :: post) n =
      pre ++ ({ x with helpful := x.helpful + (n : Int) }) :: post
  | 0 => by
    show pre ++ x :: post = _
    simp
  | n + 1 => by
    have hfind := findInc_append pre post
        ({ x with helpful := x.helpful + (n : Int) }) hpre
    simp only at hfind
    rw [iterHelpful, iterHelpful_decomp hpre n]
    simp only [postHelpful, hfind]
    simp [add_assoc]

/-! ## Helper lemmas for the daily random offset -/

/-- States the offset cache can be in after at least one request: a cached
date together with a cached value in 1–6. -/
def GoodOffsetState (s : OffsetState) : Prop :=
  ∃ d v, s.lastGeneratedDate = some d ∧ s.lastRandomValue = some v ∧ 1 ≤ v ∧ v ≤ 6

/-- The returned offset is the value cached in the resulting state. -/
theorem getDailyRandomOffset_fst (today : String) (draw : Nat) (s : OffsetState) :
    (getDailyRandomOffset today draw s).1 =
      (getDailyRandomOffset today draw s).2.lastRandomValue.getD 0 := rfl

/-- On a repeat call within the cached calendar day, nothing is
regenerated: the cached value is returned and the state kept. -/
theorem getDailyRandomOffset_frozen {s : OffsetState} {today : String} (draw : Nat)
    (h : s.lastGeneratedDate = some today) :
    getDailyRandomOffset today draw s = (s.lastRandomValue.getD 0, s) := by
  simp [getDailyRandomOffset, h]

/-- From the start state or any reachable state, one call leaves a good
state whose cached date is the request's date. -/
theorem getDailyRandomOffset_step {s : OffsetState} (today : String) (draw : Nat)
    (h : s = initOffsetState ∨ GoodOffsetState s) :
    GoodOffsetState (getDailyRandomOffset today draw s).2 ∧
    (getDailyRandomOffset today draw s).2.lastGeneratedDate = some today := by
  by_cases hd : s.lastGeneratedDate = some today
  · have hs : (getDailyRandomOffset today draw s).2 = s := by
      simp [getDailyRandomOffset, hd]
    rw [hs]
    rcases h with rfl | hgood
    · exact absurd hd (by simp [initOffsetState])
    · obtain ⟨d, v, hdate, hval, h1, h6⟩ := hgood
      exact ⟨⟨d, v, hdate, hval, h1, h6⟩, hd⟩
  · have hs : (getDailyRandomOffset today draw s).2 =
        ⟨some (draw % 6 + 1), some today⟩ := by
      simp [getDailyRandomOffset, hd]
    rw [hs]
    refine ⟨⟨today, draw % 6 + 1, rfl, rfl, by omega, ?_⟩, rfl⟩
    have := Nat.mod_lt draw (show 0 < 6 by norm_num)
    omega

/-- Serving a concatenation of request lists chains the states. -/
theorem stateAfter_append (s : OffsetState) :
    ∀ l1 l2 : List OrderReq, stateAfter s (l1 ++ l2) = stateAfter (stateAfter s l1) l2
  | [], _ => rfl
  | q :: rest, l2 => by
    simp only [List.cons_append, stateAfter]
    exact stateAfter_append _ rest l2

/-- Reachability of good states along any request trace. -/
theorem stateAfter_good (l : List OrderReq) :
    ∀ s : OffsetState, (s = initOffsetState ∨ GoodOffsetState s) →
      stateAfter s l = initOffsetState ∨ GoodOffsetState (stateAfter s l) := by
  induction l with
  | nil => intro s h; exact h
  | cons q rest ih =>
    intro s h
    exact ih _ (Or.inr (getDailyRandomOffset_step q.today q.draw h).1)

/-- A trace of requests all served on the cached calendar day leaves the
offset cache untouched. -/
theorem stateAfter_frozen {d : String} :
    ∀ (l : List OrderReq) (s : OffsetState), s.lastGeneratedDate = some d →
      (∀ q ∈ l, q.today = d) → stateAfter s l = s
  | [], _, _, _ => rfl
  | q :: rest, s, hdate, hall => by
    have hq : q.today = d := hall q (List.mem_cons_self q rest)
    have hstep : (orderCountHandler q s).2 = s := by
      show (getDailyRandomOffset q.today q.draw s).2 = s
      rw [hq, getDailyRandomOffset_frozen q.draw hdate]
    simp only [stateAfter, hstep]
    exact stateAfter_frozen rest s hdate (fun x hx => hall x (List.mem_cons_of_mem q hx))

/-- Each response of a trace is the handler's response from the state
reached by the preceding prefix. -/
theorem orderCountRun_getElem (s : OffsetState) :
    ∀ (l : List OrderReq) (i : Nat),
      (orderCountRun s l)[i]? =
        (l[i]?).map (fun q => (orderCountHandler q (stateAfter s (l.take i))).1)
  | [], i => by simp [orderCountRun]
  | q :: rest, 0 => by simp [orderCountRun, stateAfter]
  | q :: rest, i + 1 => by
    simp only [orderCountRun, List.getElem?_cons_succ, List.take_succ_cons]
    rw [orderCountRun_getElem _ rest i]
    rfl

/-- Ordered-pair version of C5, for indices `i ≤ j`. -/
theorem orderCount_daily_offset_aux (reqs : List OrderReq)
    (hmono : reqs.Pairwise (fun a b => a.today ≤ b.today))
    (i j : Nat) (hij : i ≤ j) (hj : j < reqs.length)
    (hday : (reqs.get ⟨i, lt_of_le_of_lt hij hj⟩).today = (reqs.get ⟨j, hj⟩).today) :
    ∃ off, 1 ≤ off ∧ off ≤ 6 ∧
      (orderCountRun initOffsetState reqs)[i]? =
        some ((reqs.get ⟨i, lt_of_le_of_lt hij hj⟩).actual + off) ∧
      (orderCountRun initOffsetState reqs)[j]? =
        some ((reqs.get ⟨j, hj⟩).actual + off) := by
  have hi : i < reqs.length := lt_of_le_of_lt hij hj
  have hgood_i : stateAfter initOffsetState (reqs.take i) = initOffsetState ∨
      GoodOffsetState (stateAfter initOffsetState (reqs.take i)) :=
    stateAfter_good _ _ (Or.inl rfl)
  obtain ⟨⟨d', v, hdate', hval, h1, h6⟩, hdate⟩ :=
    getDailyRandomOffset_step (s := stateAfter initOffsetState (reqs.take i))
      (reqs.get ⟨i, hi⟩).today (reqs.get ⟨i, hi⟩).draw hgood_i
  have hrespi : (orderCountRun initOffsetState reqs)[i]? =
      some ((reqs.get ⟨i, hi⟩).actual + v) := by
    rw [orderCountRun_getElem, List.getElem?_eq_getElem hi]
    show some ((reqs.get ⟨i, hi⟩).actual +
      (getDailyRandomOffset (reqs.get ⟨i, hi⟩).today (reqs.get ⟨i, hi⟩).draw
        (stateAfter initOffsetState (reqs.take i))).1) = _
    rw [getDailyRandomOffset_fst, hval]
    rfl
  have hpost : stateAfter initOffsetState (reqs.take (i + 1)) =
      (getDailyRandomOffset (reqs.get ⟨i, hi⟩).today (reqs.get ⟨i, hi⟩).draw
        (stateAfter initOffsetState (reqs.take i))).2 := by
    rw [List.take_succ, List.getElem?_eq_getElem hi, stateAfter_append]
    rfl
  rcases Nat.eq_or_lt_of_le hij with rfl | hlt
  · exact ⟨v, h1, h6, hrespi, hrespi⟩
  · -- the requests strictly between i and j are all on the same day
    have hmid : ∀ q ∈ (reqs.drop (i + 1)).take (j - (i + 1)),
        q.today = (reqs.get ⟨i, hi⟩).today := by
      intro q hq
      obtain ⟨⟨k, hk⟩, hkq⟩ := List.mem_iff_get.mp hq
      have hklen : k < j - (i + 1) := by
        have := hk
        simp only [List.length_take, List.length_drop] at this
        omega
      have hidx : i + 1 + k < reqs.length := by omega
      have hqidx : q = reqs.get ⟨i + 1 + k, hidx⟩ := by
        rw [← hkq]
        have h1' := List.getElem_take (L := reqs.drop (i + 1)) (j := j - (i + 1))
          (i := k) (h := hk)
        have h2' := List.getElem_drop (L := reqs) (i := i + 1) (j := k)
          (h := by simp only [List.length_drop]; omega)
        simp only [List.get_eq_getElem]
        rw [h1', h2']
      have hple : (reqs.get ⟨i, hi⟩).today ≤ (reqs.get ⟨i + 1 + k, hidx⟩).today :=
        List.pairwise_iff_get.mp hmono ⟨i, hi⟩ ⟨i + 1 + k, hidx⟩ (by simp; omega)
      have hjle : (reqs.get ⟨i + 1 + k, hidx⟩).today ≤ (reqs.get ⟨j, hj⟩).today :=
        List.pairwise_iff_get.mp hmono ⟨i + 1 + k, hidx⟩ ⟨j, hj⟩ (by simp; omega)
      rw [hqidx]
      exact le_antisymm (hday ▸ hjle) hple
    have htakej : reqs.take j = reqs.take (i + 1) ++ (reqs.drop (i + 1)).take (j - (i + 1)) := by
      rw [← List.take_add]
      congr 1
      omega
    have hsj : stateAfter initOffsetState (reqs.take j) =
        (getDailyRandomOffset (reqs.get ⟨i, hi⟩).today (reqs.get ⟨i, hi⟩).draw
          (stateAfter initOffsetState (reqs.take i))).2 := by
      rw [htakej, stateAfter_append, hpost]
      exact stateAfter_frozen _ _ hdate hmid
    have hrespj : (orderCountRun initOffsetState reqs)[j]? =
        some ((reqs.get ⟨j, hj⟩).actual + v) := by
      rw [orderCountRun_getElem, List.getElem?_eq_getElem hj]
      show some ((reqs.get ⟨j, hj⟩).actual +
        (getDailyRandomOffset (reqs.get ⟨j, hj⟩).today (reqs.get ⟨j, hj⟩).draw
          (stateAfter initOffsetState (reqs.take j))).1) = _
      rw [getDailyRandomOffset_frozen (reqs.get ⟨j, hj⟩).draw
        (by rw [hsj, hdate, hday]), hsj, hval]
      rfl
    exact ⟨v, h1, h6, hrespi, hrespj⟩

/-! ## Claims -/

/-- Claim C1: a helpful request on an existing review answers success with
the review's prior `helpful` value plus one, and after `n` further
consecutive increments on the same review the answered value is the
initial one plus `n + 1`: accumulation is monotonic. -/
theorem claim_C1_helpful_increment (db : List Review) (r : Review)
    (hnd : (db.map Review.id).Nodup) (hmem : r ∈ db) (n : Nat) :
    (postHelpful (some r.id) (iterHelpful r.id db n)).1 =
      .ok (r.helpful + (n : Int) + 1) := by
  obtain ⟨pre, post, rfl⟩ : ∃ pre post, db = pre ++ r :: post := by
    simpa using List.append_of_mem hmem
  have hpre : ∀ x ∈ pre, x.id ≠ r.id := by
    rw [List.map_append, List.map_cons, List.nodup_append] at hnd
    intro x hx
    have hnotin := hnd.2.2 (List.mem_map_of_mem Review.id hx)
    exact fun hcontr => hnotin (hcontr ▸ List.mem_cons_self _ _)
  have hfind := findInc_append pre post
      ({ r with helpful := r.helpful + (n : Int) }) hpre
  simp only at hfind
  rw [iterHelpful_decomp hpre n]
  simp only [postHelpful, hfind]

/-- Witness for C1: the third increment on a review with `helpful = 7`
answers `10`. -/
theorem claim_C1_helpful_increment_witness :
    (postHelpful (some 1) (iterHelpful 1 [⟨1, "p", "alice", 5, "nice", 7, 10⟩] 2)).1 =
      .ok 10 := by
  simpa using claim_C1_helpful_increment [⟨1, "p", "alice", 5, "nice", 7, 10⟩]
    ⟨1, "p", "alice", 5, "nice", 7, 10⟩ (by decide) (by decide) 2

/-- Claim C3: a create request with all four fields supplied (non-falsy)
succeeds, stores the review with `helpful = 0` and the server clock as
`created_at`, and a subsequent list request for the same `product_id`
returns a result containing that review. -/
theorem claim_C3_create_then_list (pid cn cm : String) (rt : Int) (newId now : Nat)
    (db : List Review) (hpid : pid ≠ "") (hcn : cn ≠ "") (hrt : rt ≠ 0) (hcm : cm ≠ "") :
    postReview (some pid) (some cn) (some rt) (some cm) newId now db =
      (.ok, db ++ [⟨newId, pid, cn, rt, cm, 0, now⟩]) ∧
    ∃ l, getReviews (some pid) (db ++ [⟨newId, pid, cn, rt, cm, 0, now⟩]) = .ok l ∧
      (⟨newId, pid, cn, rt, cm, 0, now⟩ : Review) ∈ l := by
  constructor
  · simp [postReview, hpid, hcn, hrt, hcm]
  · have hg : getReviews (some pid)
        (db ++ [(⟨newId, pid, cn, rt, cm, 0, now⟩ : Review)]) =
        .ok (sortByCreatedDesc ((db ++ [(⟨newId, pid, cn, rt, cm, 0, now⟩ : Review)]).filter
          (fun r => r.product_id == pid))) := by
      simp only [getReviews]
      rw [if_neg hpid]
    refine ⟨_, hg, ?_⟩
    refine ((List.perm_insertionSort dateDesc _).mem_iff).mpr ?_
    rw [List.mem_filter]
    exact ⟨List.mem_append_right _ (List.mem_singleton_self _), by simp⟩

/-- Witness for C3 at a concrete create on a nonempty collection. -/
theorem claim_C3_create_then_list_witness :
    postReview (some "p") (some "bob") (some 4) (some "ok") 2 20
        [⟨1, "q", "alice", 5, "nice", 0, 10⟩] =
      (.ok, [⟨1, "q", "alice", 5, "nice", 0, 10⟩, ⟨2, "p", "bob", 4, "ok", 0, 20⟩]) ∧
    ∃ l, getReviews (some "p")
        [⟨1, "q", "alice", 5, "nice", 0, 10⟩, ⟨2, "p", "bob", 4, "ok", 0, 20⟩] = .ok l ∧
      (⟨2, "p", "bob", 4, "ok", 0, 20⟩ : Review) ∈ l :=
  claim_C3_create_then_list "p" "bob" "ok" 4 2 20 [⟨1, "q", "alice", 5, "nice", 0, 10⟩]
    (by decide) (by decide) (by decide) (by decide)

/-- Claim C8: a list request returns exactly the stored reviews whose
`product_id` equals the query value, ordered by `created_at` descending. -/
theorem claim_C8_list_filter_sorted (pid : String) (db : List Review) (hpid : pid ≠ "") :
    ∃ l, getReviews (some pid) db = .ok l ∧
      l.Perm (db.filter (fun r => r.product_id == pid)) ∧
      l.Pairwise (fun a b => b.created_at ≤ a.created_at) := by
  refine ⟨sortByCreatedDesc (db.filter (fun r => r.product_id == pid)), ?_, ?_, ?_⟩
  · simp [getReviews, hpid]
  · exact List.perm_insertionSort dateDesc _
  · exact List.sorted_insertionSort dateDesc _

/-- Witness for C8 on a three-review collection with two matches. -/
theorem claim_C8_list_filter_sorted_witness :
    ∃ l, getReviews (some "p")
        [⟨1, "p", "alice", 5, "nice", 0, 10⟩, ⟨2, "q", "bob", 4, "ok", 0, 15⟩,
         ⟨3, "p", "carol", 3, "meh", 0, 20⟩] = .ok l ∧
      l.Perm ([⟨1, "p", "alice", 5, "nice", 0, 10⟩, ⟨2, "q", "bob", 4, "ok", 0, 15⟩,
         ⟨3, "p", "carol", 3, "meh", 0, 20⟩].filter (fun r => r.product_id == "p")) ∧
      l.Pairwise (fun a b => b.created_at ≤ a.created_at) :=
  claim_C8_list_filter_sorted "p"
    [⟨1, "p", "alice", 5, "nice", 0, 10⟩, ⟨2, "q", "bob", 4, "ok", 0, 15⟩,
     ⟨3, "p", "carol", 3, "meh", 0, 20⟩] (by decide)

/-- Claim C5: along any trace of order-count requests whose calendar dates
are nondecreasing (dates come from a monotone clock), every response is
the true count plus an offset between 1 and 6, and any two requests served
on the same calendar day get the same offset added. -/
theorem claim_C5_order_count_daily_offset (reqs : List OrderReq)
    (hmono : reqs.Pairwise (fun a b => a.today ≤ b.today))
    (i j : Nat) (hi : i < reqs.length) (hj : j < reqs.length)
    (hday : (reqs.get ⟨i, hi⟩).today = (reqs.get ⟨j, hj⟩).today) :
    ∃ off, 1 ≤ off ∧ off ≤ 6 ∧
      (orderCountRun initOffsetState reqs)[i]? =
        some ((reqs.get ⟨i, hi⟩).actual + off) ∧
      (orderCountRun initOffsetState reqs)[j]? =
        some ((reqs.get ⟨j, hj⟩).actual + off) := by
  rcases le_total i j with hij | hij
  · exact orderCount_daily_offset_aux reqs hmono i j hij hj hday
  · obtain ⟨off, h1, h6, ha, hb⟩ :=
      orderCount_daily_offset_aux reqs hmono j i hij hi hday.symm
    exact ⟨off, h1, h6, hb, ha⟩

/-- Witness for C5: two same-day requests on a two-request trace share the
offset. -/
theorem claim_C5_order_count_daily_offset_witness :
    ∃ off, 1 ≤ off ∧ off ≤ 6 ∧
      (orderCountRun initOffsetState
        [⟨10, "2025-04-04", 3⟩, ⟨12, "2025-04-04", 5⟩])[0]? = some (10 + off) ∧
      (orderCountRun initOffsetState
        [⟨10, "2025-04-04", 3⟩, ⟨12, "2025-04-04", 5⟩])[1]? = some (12 + off) :=
  claim_C5_order_count_daily_offset
    [⟨10, "2025-04-04", 3⟩, ⟨12, "2025-04-04", 5⟩]
    (List.Pairwise.cons
      (fun q hq => by
        rcases List.mem_singleton.mp hq with rfl
        exact le_refl _)
      (List.Pairwise.cons (fun q hq => absurd hq (List.not_mem_nil q))
        List.Pairwise.nil))
    0 1 (by norm_num) (by norm_num) rfl

/-- Counterexample to claim C4: a rating outside 1–5 can be stored through
the public create route (only truthiness is checked), and the stats object
then carries a sixth key, so its keys are not exactly the five admissible
values. -/
theorem claim_C4_counterexample :
    postReview (some "p") (some "alice") (some 6) (some "wow") 1 100 [] =
      (.ok, [⟨1, "p", "alice", 6, "wow", 0, 100⟩]) ∧
    (reviewStats [⟨1, "p", "alice", 6, "wow", 0, 100⟩]).ratings.map Prod.fst =
      [1, 2, 3, 4, 5, 6] ∧
    (6 : Int) ∉ ([1, 2, 3, 4, 5] : List Int) := by
  refine ⟨by decide, by decide, by decide⟩

/-- Claim C4 (amended): when every stored rating lies in 1–5, the stats
object has exactly the keys 1–5, each mapped to the number of stored
reviews with that rating (zero when absent), and `totalReviews` is the
number of stored reviews.  (Without the hypothesis the claim fails: a
stored out-of-range rating adds an extra key, see the counterexample.) -/
theorem claim_C4_review_stats (db : List Review)
    (hall : ∀ r ∈ db, 1 ≤ r.rating ∧ r.rating ≤ 5) :
    (reviewStats db).ratings.map Prod.fst = [1, 2, 3, 4, 5] ∧
    (∀ k : Int, 1 ≤ k → k ≤ 5 →
      (reviewStats db).ratings.lookup k = some (db.countP (fun r => r.rating == k))) ∧
    (reviewStats db).totalReviews = db.length := by
  have hkeys_init : initRatings.map Prod.fst = [1, 2, 3, 4, 5] := rfl
  have hstat_keys : ∀ p ∈ aggregateByRating db, p.1 ∈ initRatings.map Prod.fst := by
    intro p hp
    obtain ⟨v, hv, rfl⟩ := List.mem_map.mp hp
    have hvdb : v ∈ ratingsOf db := List.mem_dedup.mp hv
    obtain ⟨r, hr, rfl⟩ := List.mem_map.mp hvdb
    obtain ⟨hr1, hr5⟩ := hall r hr
    rw [hkeys_init]
    simp only [List.mem_cons, List.not_mem_nil, or_false]
    omega
  refine ⟨?_, ?_, ?_⟩
  · simp only [reviewStats]
    rw [foldl_setKey_keys hstat_keys, hkeys_init]
  · intro k hk1 hk5
    simp only [reviewStats]
    by_cases hk : k ∈ (ratingsOf db).dedup
    · have hmem : (k, (ratingsOf db).count k) ∈ aggregateByRating db :=
        List.mem_map_of_mem _ hk
      rw [lookup_foldl_setKey_of_mem (aggregateByRating_keys_nodup db) hmem]
      congr 1
      rw [ratingsOf, List.count_eq_countP, List.countP_map]
      rfl
    · rw [lookup_foldl_setKey_of_not_mem]
      · have hc : db.countP (fun r => r.rating == k) = 0 := by
          rw [List.countP_eq_zero]
          intro r hr hcontr
          refine hk (List.mem_dedup.mpr ?_)
          have heq : r.rating = k := by simpa using hcontr
          rw [← heq]
          exact List.mem_map_of_mem Review.rating hr
        rw [hc]
        interval_cases k <;> rfl
      · intro p hp hpk
        obtain ⟨v, hv, rfl⟩ := List.mem_map.mp hp
        exact hk (by rw [← show v = k from hpk]; exact hv)
  · simp only [reviewStats]
    rw [foldl_add_snd, Nat.zero_add, aggregateByRating, List.map_map]
    have hcomp : (Prod.snd ∘ fun v => (v, (ratingsOf db).count v)) =
        fun v => (ratingsOf db).count v := rfl
    rw [hcomp, sum_dedup_count, ratingsOf, List.length_map]

/-- Witness for C4 on the spec's seeded collection: three rating-5 reviews
and one rating-3 review. -/
theorem claim_C4_review_stats_witness :
    (reviewStats [⟨1, "p", "a", 5, "x", 0, 10⟩, ⟨2, "p", "b", 5, "y", 0, 11⟩,
        ⟨3, "q", "c", 5, "z", 0, 12⟩, ⟨4, "q", "d", 3, "w", 0, 13⟩]).ratings.map Prod.fst =
      [1, 2, 3, 4, 5] ∧
    (reviewStats [⟨1, "p", "a", 5, "x", 0, 10⟩, ⟨2, "p", "b", 5, "y", 0, 11⟩,
        ⟨3, "q", "c", 5, "z", 0, 12⟩, ⟨4, "q", "d", 3, "w", 0, 13⟩]).ratings.lookup 5 =
      some (([⟨1, "p", "a", 5, "x", 0, 10⟩, ⟨2, "p", "b", 5, "y", 0, 11⟩,
        ⟨3, "q", "c", 5, "z", 0, 12⟩, ⟨4, "q", "d", 3, "w", 0, 13⟩] : List Review).countP
          (fun r => r.rating == 5)) ∧
    (reviewStats [⟨1, "p", "a", 5, "x", 0, 10⟩, ⟨2, "p", "b", 5, "y", 0, 11⟩,
        ⟨3, "q", "c", 5, "z", 0, 12⟩, ⟨4, "q", "d", 3, "w", 0, 13⟩]).totalReviews = 4 :=
  ⟨(claim_C4_review_stats _ (by decide)).1,
   (claim_C4_review_stats _ (by decide)).2.1 5 (by decide) (by decide),
   (claim_C4_review_stats _ (by decide)).2.2⟩

/-- Claim C6: a `POST /reviews/helpful` request whose `review_id` matches
no stored review answers 404, and no stored review is modified (the
collection is returned unchanged). -/
theorem claim_C6_helpful_unknown_id (rid : Nat) (db : List Review)
    (h : ∀ x ∈ db, x.id ≠ rid) :
    postHelpful (some rid) db = (.notFound, db) :=
  postHelpful_not_found rid db h

/-- Witness for C6 at a concrete collection and an unknown id. -/
theorem claim_C6_helpful_unknown_id_witness :
    postHelpful (some 7) [⟨1, "p", "alice", 5, "nice", 0, 10⟩] =
      (.notFound, [⟨1, "p", "alice", 5, "nice", 0, 10⟩]) :=
  claim_C6_helpful_unknown_id 7 [⟨1, "p", "alice", 5, "nice", 0, 10⟩] (by decide)

/-- Claim C7: a `POST /reviews` request with at least one of the four body
fields omitted answers 400 and persists nothing. -/
theorem claim_C7_create_missing_field (pid? cn? : Option String) (rt? : Option Int)
    (cm? : Option String) (newId now : Nat) (db : List Review)
    (h : pid? = none ∨ cn? = none ∨ rt? = none ∨ cm? = none) :
    postReview pid? cn? rt? cm? newId now db = (.badRequest, db) :=
  postReview_missing_field pid? cn? rt? cm? newId now db h

/-- Witness for C7: creating with the comment omitted, on a nonempty
collection. -/
theorem claim_C7_create_missing_field_witness :
    postReview (some "p") (some "bob") (some 4) none 2 20
        [⟨1, "p", "alice", 5, "nice", 0, 10⟩] =
      (.badRequest, [⟨1, "p", "alice", 5, "nice", 0, 10⟩]) :=
  claim_C7_create_missing_field (some "p") (some "bob") (some 4) none 2 20
    [⟨1, "p", "alice", 5, "nice", 0, 10⟩] (Or.inr (Or.inr (Or.inr rfl)))

/-- Counterexample to claim C2: a `POST /reviews/helpful` request with
`review_id` absent is answered 404, not 400 — the route has no presence
check for its required field. -/
theorem claim_C2_counterexample :
    (postHelpful none [⟨1, "p", "alice", 5, "nice", 0, 10⟩]).1.status = 404 ∧
    (postHelpful none [⟨1, "p", "alice", 5, "nice", 0, 10⟩]).1.status ≠ 400 := by
  exact ⟨rfl, by decide⟩

/-- Claim C2 (amended): `GET /reviews` with `product_id` absent and
`POST /reviews` with any body field absent answer 400 with the collection
untouched, but `POST /reviews/helpful` performs no presence check on
`review_id`: the absent id reaches the repository lookup, matches no
document, and the route answers 404, not 400. -/
theorem claim_C2_missing_field_validation :
    (∀ db : List Review, getReviews none db = .badRequest) ∧
    (∀ (pid? cn? : Option String) (rt? : Option Int) (cm? : Option String)
        (newId now : Nat) (db : List Review),
        (pid? = none ∨ cn? = none ∨ rt? = none ∨ cm? = none) →
        postReview pid? cn? rt? cm? newId now db = (.badRequest, db)) ∧
    (∀ db : List Review, postHelpful none db = (.notFound, db)) :=
  ⟨fun _ => rfl, postReview_missing_field, fun _ => rfl⟩

/-- Witness for C2 (amended) at concrete requests. -/
theorem claim_C2_missing_field_validation_witness :
    getReviews none [⟨1, "p", "alice", 5, "nice", 0, 10⟩] = .badRequest ∧
    postReview none (some "bob") (some 4) (some "ok") 2 20 [] = (.badRequest, []) ∧
    postHelpful none [⟨1, "p", "alice", 5, "nice", 0, 10⟩] =
      (.notFound, [⟨1, "p", "alice", 5, "nice", 0, 10⟩]) :=
  ⟨claim_C2_missing_field_validation.1 _,
   claim_C2_missing_field_validation.2.1 none (some "bob") (some 4) (some "ok") 2 20 []
     (Or.inl rfl),
   claim_C2_missing_field_validation.2.2 _⟩

/-- Claim C9: no route modifies the fields `product_id`, `customer_name`,
`rating`, `comment`, `created_at` of an existing review, and no route
deletes a review; only the `helpful` counter of a review can change. -/
theorem claim_C9_frame (op : Op) (db : List Review) (r : Review) (hr : r ∈ db) :
    ∃ r', r' ∈ applyOp op db ∧ r'.id = r.id ∧ r'.product_id = r.product_id ∧
      r'.customer_name = r.customer_name ∧ r'.rating = r.rating ∧
      r'.comment = r.comment ∧ r'.created_at = r.created_at := by
  cases op with
  | listOp pid? => exact ⟨r, hr, rfl, rfl, rfl, rfl, rfl, rfl⟩
  | statsOp => exact ⟨r, hr, rfl, rfl, rfl, rfl, rfl, rfl⟩
  | pingOp => exact ⟨r, hr, rfl, rfl, rfl, rfl, rfl, rfl⟩
  | createOp pid? cn? rt? cm? newId now =>
    refine ⟨r, ?_, rfl, rfl, rfl, rfl, rfl, rfl⟩
    cases pid? <;> cases cn? <;> cases rt? <;> cases cm? <;> try exact hr
    simp only [applyOp, postReview]
    split
    · exact hr
    · exact List.mem_append_left _ hr
  | helpfulOp rid? =>
    cases rid? with
    | none => exact ⟨r, hr, rfl, rfl, rfl, rfl, rfl, rfl⟩
    | some rid =>
      simp only [applyOp, postHelpful]
      cases hrec : findByIdAndUpdateInc rid db with
      | none => exact ⟨r, hr, rfl, rfl, rfl, rfl, rfl, rfl⟩
      | some p =>
        obtain ⟨db', u⟩ := p
        obtain ⟨pre, x, post, hl, hx, hl', hu⟩ := findInc_eq_some hrec
        subst hl; subst hl'
        rcases List.mem_append.mp hr with hpre | hxpost
        · exact ⟨r, List.mem_append_left _ hpre, rfl, rfl, rfl, rfl, rfl, rfl⟩
        · rcases List.mem_cons.mp hxpost with rfl | hpost
          · exact ⟨{ r with helpful := r.helpful + 1 },
              List.mem_append_right _ (List.mem_cons_self _ _),
              rfl, rfl, rfl, rfl, rfl, rfl⟩
          · exact ⟨r, List.mem_append_right _ (List.mem_cons_of_mem _ hpost),
              rfl, rfl, rfl, rfl, rfl, rfl⟩

/-- Witness for C9: a helpful increment keeps the review's other fields. -/
theorem claim_C9_frame_witness :
    ∃ r', r' ∈ applyOp (.helpfulOp (some 1)) [⟨1, "p", "alice", 5, "nice", 0, 10⟩] ∧
      r'.id = 1 ∧ r'.product_id = "p" ∧ r'.customer_name = "alice" ∧
      r'.rating = 5 ∧ r'.comment = "nice" ∧ r'.created_at = 10 :=
  claim_C9_frame (.helpfulOp (some 1)) [⟨1, "p", "alice", 5, "nice", 0, 10⟩]
    ⟨1, "p", "alice", 5, "nice", 0, 10⟩ (by decide)

/-- Claim C10: the create route's guard tests truthiness, so a supplied
rating `0` or a supplied empty-string field is rejected with 400 exactly
like a missing field, and no reachable collection (starting from the
empty one) holds a rating-zero review. -/
theorem claim_C10_truthiness_guard :
    (∀ (pid cn cm : String) (newId now : Nat) (db : List Review),
        postReview (some pid) (some cn) (some 0) (some cm) newId now db = (.badRequest, db)) ∧
    (∀ (cn cm : String) (rt : Int) (newId now : Nat) (db : List Review),
        postReview (some "") (some cn) (some rt) (some cm) newId now db = (.badRequest, db)) ∧
    (∀ (pid cm : String) (rt : Int) (newId now : Nat) (db : List Review),
        postReview (some pid) (some "") (some rt) (some cm) newId now db = (.badRequest, db)) ∧
    (∀ (pid cn : String) (rt : Int) (newId now : Nat) (db : List Review),
        postReview (some pid) (some cn) (some rt) (some "") newId now db = (.badRequest, db)) ∧
    (∀ (ops : List Op) (r : Review), r ∈ applyOps [] ops → r.rating ≠ 0) := by
  refine ⟨?_, ?_, ?_, ?_, ?_⟩
  · intro pid cn cm newId now db
    simp [postReview]
  · intro cn cm rt newId now db
    simp [postReview]
  · intro pid cm rt newId now db
    simp [postReview]
  · intro pid cn rt newId now db
    simp [postReview]
  · intro ops r hr
    exact rating_nonzero_reachable ops [] (by simp) r hr

/-- Witness for C10: a rating-0 create is rejected, and a concrete
reachable review has a nonzero rating. -/
theorem claim_C10_truthiness_guard_witness :
    postReview (some "p") (some "bob") (some 0) (some "meh") 2 20 [] = (.badRequest, []) ∧
    (⟨1, "p", "alice", 5, "nice", 0, 10⟩ : Review).rating ≠ 0 :=
  ⟨claim_C10_truthiness_guard.1 "p" "bob" "meh" 2 20 [],
   claim_C10_truthiness_guard.2.2.2.2
     [.createOp (some "p") (some "alice") (some 5) (some "nice") 1 10]
     ⟨1, "p", "alice", 5, "nice", 0, 10⟩ (by decide)⟩

end ShopifyReviews
